import Mathlib

/-!
Verification development for the logvista log-viewer core: a shallow
embedding of `indexing.py`, `filelog.py` and `filtering.py`.

Modelling conventions:
* bytes are natural numbers below 256; Python `str` values are lists of
  Unicode code points (`List Nat`);
* Python character classes (`\w`, `\s`, digits) and case mapping are
  modelled on the ASCII range, which covers every string manipulated in
  this development;
* Python `re` substitutions are modelled by deterministic scanners, one
  per pattern of `filtering.py`, executed by a generic leftmost-match
  substitution driver;
* structural recursion over an explicit fuel argument replaces Python
  `while` loops; the fuel supplied is always sufficient because every
  iteration consumes at least one element.
-/

namespace LogVista

/-- Code points of a string literal, used for ASCII tokens. -/
def strCp (s : String) : List Nat := s.toList.map Char.toNat

/-- ASCII decimal digit. -/
def isDigitCp (c : Nat) : Bool := 48 ≤ c && c ≤ 57

/-- ASCII hexadecimal digit (`[0-9a-fA-F]`). -/
def isHexCp (c : Nat) : Bool :=
  (48 ≤ c && c ≤ 57) || (97 ≤ c && c ≤ 102) || (65 ≤ c && c ≤ 70)

/-- ASCII letter (`[A-Za-z]`). -/
def isAlphaCp (c : Nat) : Bool := (65 ≤ c && c ≤ 90) || (97 ≤ c && c ≤ 122)

/-- Python regex `\w` on the ASCII range: letters, digits, underscore. -/
def isWordCp (c : Nat) : Bool := isAlphaCp c || isDigitCp c || c == 95

/-- Python whitespace (`\s`, `str.strip`, `int` field stripping) on the
ASCII range. -/
def isWsCp (c : Nat) : Bool := c == 32 || c == 9 || c == 10 || c == 13 || c == 11 || c == 12

/-- Python `str.upper` restricted to ASCII letters. -/
def asciiUpper (c : Nat) : Nat := if 97 ≤ c && c ≤ 122 then c - 32 else c

/-- Python `str.strip()` (both ends) with the ASCII whitespace set. -/
def pyStrip (s : List Nat) : List Nat :=
  ((s.dropWhile isWsCp).reverse.dropWhile isWsCp).reverse

/-- Python slice `s[a:b]` on a code-point list (both indices clamped). -/
def pySlice (s : List Nat) (a b : Nat) : List Nat := (s.take b).drop a

/-- Substring containment, `needle in haystack` for Python `str`. -/
def listStarts (n h : List Nat) : Bool :=
  match n, h with
  | [], _ => true
  | _ :: _, [] => false
  | a :: ns, b :: hs => a == b && listStarts ns hs

/-- Test `occursIn n h`, Python `n in h` (contiguous substring). -/
def occursIn (n h : List Nat) : Bool :=
  if listStarts n h then true
  else match h with
    | [] => false
    | _ :: t => occursIn n t

/-- Digit run of Python `int`: digits with single underscores strictly
between digits (`1_0` parses, `_1`, `1_`, `1__0` do not). `acc` carries
the value of the digits consumed so far. -/
def pyIntDigits (acc : Int) : List Nat → Option Int
  | [] => some acc
  | 95 :: d :: rest =>
      if isDigitCp d then pyIntDigits (acc * 10 + ((d : Int) - 48)) rest else none
  | 95 :: [] => none
  | d :: rest =>
      if isDigitCp d then pyIntDigits (acc * 10 + ((d : Int) - 48)) rest else none

/-- Unsigned part of Python `int(str)`: a non-empty digit run. -/
def pyIntNat : List Nat → Option Int
  | [] => none
  | d :: rest => if isDigitCp d then pyIntDigits ((d : Int) - 48) rest else none

/-- Python `int(str)` (base 10) on the ASCII range: strips whitespace,
accepts one optional sign, then digits with single interior underscores.
Returns `none` where CPython raises `ValueError`. -/
def pyInt (cs : List Nat) : Option Int :=
  match pyStrip cs with
  | 43 :: rest => pyIntNat rest
  | 45 :: rest => (pyIntNat rest).map (fun n => -n)
  | rest => pyIntNat rest

/-- Model of `parse_ts_compact` from `indexing.py`: returns
`(sec_key, minute_key)` for a `YYYY-MM-DD{space|T}HH:MM:SS` prefix, or
`none` where the source returns `(None, None)`. -/
def parse_ts_compact (line : List Nat) : Option (Int × Int) :=
  if line.length < 19 then none
  else
    let s := line.take 19
    if s.getD 4 0 == 45 && s.getD 7 0 == 45 &&
       (s.getD 10 0 == 32 || s.getD 10 0 == 84) &&
       s.getD 13 0 == 58 && s.getD 16 0 == 58 then
      match pyInt (pySlice s 0 4), pyInt (pySlice s 5 7), pyInt (pySlice s 8 10),
            pyInt (pySlice s 11 13), pyInt (pySlice s 14 16), pyInt (pySlice s 17 19) with
      | some y, some mo, some d, some hh, some mm, some ss =>
          some ((((((y * 100 + mo) * 100 + d) * 100 + hh) * 100 + mm) * 100 + ss),
                ((((y * 100 + mo) * 100 + d) * 100 + hh) * 100 + mm))
      | _, _, _, _, _, _ => none
    else none

/-- The timestamp parser as the specification words it (claim C4): examine
exactly the first 19 characters, demand the five separator positions, parse
the six numeric fields, and digit-pack the two keys. -/
def specTimestampParse (line : List Nat) : Option (Int × Int) :=
  if line.length < 19 then none
  else
    let s := line.take 19
    if s.getD 4 0 == 45 && s.getD 7 0 == 45 &&
       (s.getD 10 0 == 32 || s.getD 10 0 == 84) &&
       s.getD 13 0 == 58 && s.getD 16 0 == 58 then
      match pyInt (pySlice s 0 4), pyInt (pySlice s 5 7), pyInt (pySlice s 8 10),
            pyInt (pySlice s 11 13), pyInt (pySlice s 14 16), pyInt (pySlice s 17 19) with
      | some y, some mo, some d, some hh, some mm, some ss =>
          some ((((((y * 100 + mo) * 100 + d) * 100 + hh) * 100 + mm) * 100 + ss),
                ((((y * 100 + mo) * 100 + d) * 100 + hh) * 100 + mm))
      | _, _, _, _, _, _ => none
    else none

/-- Modelled from the spec: `LEVEL_WORDS`, the recognized severity tokens,
is referenced by `indexing.py` but defined in a module that is not part of
the sources; the spec lists the tokens
`TRACE, DEBUG, INFO, WARN, WARNING, ERROR, FATAL, CRITICAL`. -/
def LEVEL_WORDS : List (List Nat) :=
  [strCp "TRACE", strCp "DEBUG", strCp "INFO", strCp "WARN",
   strCp "WARNING", strCp "ERROR", strCp "FATAL", strCp "CRITICAL"]

/-- Modelled from the spec: `LEVEL_CANON` is referenced by `indexing.py`
but not defined in the sources; the spec states that `WARNING` normalizes
to the same canonical level as `WARN` (`LEVEL_CANON.get(w, w)`). -/
def levelCanonGet (w : List Nat) : List Nat :=
  if w == strCp "WARNING" then strCp "WARN" else w

/-- Modelled from the spec: `LEVEL_TO_INT` is referenced by `indexing.py`
but not defined in the sources; the spec only fixes that levels map to
8-bit codes with 255 for "unknown", so the seven canonical levels get
distinct codes 0..6 in severity order. -/
def LEVEL_TO_INT : List (List Nat × Nat) :=
  [(strCp "TRACE", 0), (strCp "DEBUG", 1), (strCp "INFO", 2), (strCp "WARN", 3),
   (strCp "ERROR", 4), (strCp "FATAL", 5), (strCp "CRITICAL", 6)]

/-- Lookup `LEVEL_TO_INT.get(lvl, 255)`. -/
def levelToIntGet (w : List Nat) : Nat :=
  match LEVEL_TO_INT.find? (fun p => p.1 == w) with
  | some p => p.2
  | none => 255

/-- Modelled from the spec: `INT_TO_LEVEL.get(i)` (inverse of
`LEVEL_TO_INT`), referenced by `filtering.py` but not defined in the
sources. -/
def intToLevelGet (i : Nat) : Option (List Nat) :=
  match LEVEL_TO_INT.find? (fun p => p.2 == i) with
  | some p => some p.1
  | none => none

/-- The eight padded fast-path tokens of `detect_level`, in source order. -/
def fastTokens : List (List Nat) :=
  [strCp " TRACE ", strCp " DEBUG ", strCp " INFO ", strCp " WARN ",
   strCp " WARNING ", strCp " ERROR ", strCp " FATAL ", strCp " CRITICAL "]

/-- Form `f"[{w}]"` for the fallback of `detect_level`. -/
def brkForm (w : List Nat) : List Nat := 91 :: w ++ [93]

/-- Form `f"({w})"` for the fallback of `detect_level`. -/
def parForm (w : List Nat) : List Nat := 40 :: w ++ [41]

/-- Form `f"{w}:"` for the fallback of `detect_level`. -/
def colForm (w : List Nat) : List Nat := w ++ [58]

/-- Python `w.strip()` applied to a padded fast-path token. -/
def stripToken (w : List Nat) : List Nat := pyStrip w

/-- Model of `detect_level` from `indexing.py`: best-effort severity detection over
the upper-cased first 200 characters; returns the empty string where the
source returns `""`. -/
def detect_level (line : List Nat) : List Nat :=
  let upper := (line.take 200).map asciiUpper
  match fastTokens.find? (fun w => occursIn w upper) with
  | some w => levelCanonGet (stripToken w)
  | none =>
    match LEVEL_WORDS.find? (fun w =>
        occursIn (brkForm w) upper || occursIn (parForm w) upper ||
        occursIn (colForm w) upper) with
    | some w => levelCanonGet w
    | none => []

/-- Is one byte a UTF-8 continuation byte (`0x80..0xBF`)? -/
def isCont (b : Nat) : Bool := 128 ≤ b && b ≤ 191

/-- Worker of `utf8DecodeReplace`, structurally recursive on a fuel that
decreases once per decoded character while at least one byte is consumed,
so `fuel ≥ input length` yields the whole decode. -/
def utf8Go (fuel : Nat) (l : List Nat) : List Nat :=
  match fuel with
  | 0 => []
  | fuel + 1 =>
    match l with
    | [] => []
    | b :: rest =>
      if b ≤ 127 then b :: utf8Go fuel rest
      else if 194 ≤ b && b ≤ 223 then
        match rest with
        | c :: rest2 =>
          if isCont c then ((b - 192) * 64 + (c - 128)) :: utf8Go fuel rest2
          else 65533 :: utf8Go fuel rest
        | [] => [65533]
      else if 224 ≤ b && b ≤ 239 then
        match rest with
        | c :: d :: rest2 =>
          if (if b == 224 then 160 ≤ c && c ≤ 191
              else if b == 237 then 128 ≤ c && c ≤ 159
              else isCont c) && isCont d then
            ((b - 224) * 4096 + (c - 128) * 64 + (d - 128)) :: utf8Go fuel rest2
          else 65533 :: utf8Go fuel rest
        | _ => 65533 :: utf8Go fuel rest
      else if 240 ≤ b && b ≤ 244 then
        match rest with
        | c :: d :: e :: rest2 =>
          if (if b == 240 then 144 ≤ c && c ≤ 191
              else if b == 244 then 128 ≤ c && c ≤ 143
              else isCont c) && isCont d && isCont e then
            ((b - 240) * 262144 + (c - 128) * 4096 + (d - 128) * 64 + (e - 128)) ::
              utf8Go fuel rest2
          else 65533 :: utf8Go fuel rest
        | _ => 65533 :: utf8Go fuel rest
      else 65533 :: utf8Go fuel rest

/-- Python `bytes.decode("utf-8", errors="replace")`: decodes valid sequences
exactly; each invalid byte yields one replacement character U+FFFD.
(CPython can merge a truncated multi-byte prefix into one replacement;
every decode in this development that a theorem inspects is pure ASCII,
where the two behaviours agree byte for byte.) -/
def utf8DecodeReplace (l : List Nat) : List Nat := utf8Go l.length l

/-- Model of `LogIndex` from `indexing.py`; the three `array` fields become lists
(`array("Q")` holds unsigned 64-bit values, `array("B")` bytes). -/
structure LogIndex where
  offsets : List Nat
  minute_keys : List Nat
  level_ints : List Nat
  total_lines : Nat
  file_size : Nat
deriving DecidableEq, Repr

/-- Lines 123-127 of `indexing.py`: the `level_ints` entry appended for
a line with the given decoded prefix. -/
def levelCodeOf (pref : List Nat) : Nat :=
  let lvl := detect_level pref
  if lvl ≠ [] then levelToIntGet lvl else 255

/-- Per-line metadata computed by `IndexWorker.run` (lines 115-127 of
`indexing.py`) from a line's first 256 bytes: the appended
`minute_keys` entry and `level_ints` entry. Appending a negative minute
key to `array("Q")` raises `OverflowError` in the source (caught by the
generic handler, failing the run), hence the `Option`. -/
def lineMeta (lineBytes : List Nat) : Option (Nat × Nat) :=
  let pref := utf8DecodeReplace (lineBytes.take 256)
  let mk : Int :=
    match parse_ts_compact pref with
    | some p => p.2
    | none => 0
  if mk < 0 then none else some (mk.toNat, levelCodeOf pref)

/-- Python `bytes.find(b"\n")`: index of the first line feed. -/
def pyFindNl : List Nat → Option Nat
  | [] => none
  | b :: t => if b == 10 then some 0 else (pyFindNl t).map (· + 1)

/-- The inner line loop of `IndexWorker.run` (lines 107-129): scan `rest`
for line feeds; for each one append `(pos + nl + 1, minute_key, level)`
where `nl` is the byte's index in the chunk buffer (`base` accumulates
`pos` plus the part of the buffer already consumed). Returns the emitted
triples and the unterminated leftover, or `none` where the source run
fails. `fuel ≥ rest.length` suffices. -/
def scanBuf (fuel : Nat) (base : Nat) (rest : List Nat) :
    Option (List (Nat × Nat × Nat) × List Nat) :=
  match fuel with
  | 0 => some ([], rest)
  | fuel + 1 =>
    match pyFindNl rest with
    | none => some ([], rest)
    | some nl =>
      match lineMeta (rest.take nl) with
      | none => none
      | some meta =>
        match scanBuf fuel (base + nl + 1) (rest.drop (nl + 1)) with
        | none => none
        | some (ts, leftover) =>
          some ((base + nl + 1, meta.1, meta.2) :: ts, leftover)

/-- The chunked read loop of `IndexWorker.run` (lines 91-133): take a
chunk, append it to the carried buffer, emit triples for every complete
line in the buffer, keep the unterminated tail, and advance `pos` by the
chunk length. `fuel ≥ remaining.length + 1` suffices for a positive
chunk size. -/
def idxLoop (fuel chunk : Nat) (remaining buf : List Nat) (pos : Nat)
    (acc : List (Nat × Nat × Nat)) : Option (List (Nat × Nat × Nat)) :=
  match fuel with
  | 0 => some acc
  | fuel + 1 =>
    let data := remaining.take chunk
    if data.isEmpty then some acc
    else
      let buf2 := buf ++ data
      match scanBuf buf2.length pos buf2 with
      | none => none
      | some (ts, leftover) =>
        idxLoop fuel chunk (remaining.drop chunk) leftover (pos + data.length) (acc ++ ts)

/-- Model of `IndexWorker.run` from `indexing.py` on a file whose bytes are
`content`, without cancellation: seeds the arrays with the placeholder
`(0, 0, 255)`, streams the file in `chunk`-sized reads, and finishes with
`total_lines = max(0, len(offsets) - 1)`. Returns `none` where the source
run emits `failed`. -/
def runIndex (content : List Nat) (chunk : Nat) : Option LogIndex :=
  match idxLoop (content.length + 1) chunk content [] 0 [] with
  | none => none
  | some ts =>
    some { offsets := 0 :: ts.map (fun t => t.1)
           minute_keys := 0 :: ts.map (fun t => t.2.1)
           level_ints := 255 :: ts.map (fun t => t.2.2)
           total_lines := ts.length
           file_size := content.length }

/-- Python `mmap.find(b"\n", offset)`: index of the first line feed at or after
`offset`, as an absolute index. -/
def findNl (data : List Nat) (offset : Nat) : Option Nat :=
  match pyFindNl (data.drop offset) with
  | none => none
  | some i => some (offset + i)

/-- Lines 44-49 of `filelog.py`: the raw bytes of the line starting at
`offset` — up to the next line feed or end of file, capped at
`maxBytes`. -/
def readlineRaw (data : List Nat) (offset maxBytes : Nat) : List Nat :=
  let size := data.length
  let e0 :=
    match findNl data offset with
    | none => size
    | some i => i
  let e1 := if e0 - offset > maxBytes then offset + maxBytes else e0
  pySlice data offset e1

/-- Lines 51-52 of `filelog.py`: trim one trailing carriage return. -/
def stripCr (b : List Nat) : List Nat :=
  if b.getLast? == some 13 then b.dropLast else b

/-- Model of `MappedLogFile.readline_at` from `filelog.py`, lines 36-53. The state
of the accessor is its mapping: `none` models a closed file
(`self._mm is None`), `some data` an open mapping whose `self.size`
equals `data.length`. Returns decoded code points. -/
def readline_at (mm : Option (List Nat)) (offset maxBytes : Nat) : List Nat :=
  match mm with
  | none => []
  | some data => utf8DecodeReplace (stripCr (readlineRaw data offset maxBytes))

/-- Word-ness of the character before the scan position (`none` at the
start of the string counts as non-word), for regex `\b`. -/
def prevWord : Option Nat → Bool
  | none => false
  | some p => isWordCp p

/-- Scan for the closing quote of `RE_QUOTED = (['\"]).*?\1`: the lazy
dot cannot cross a line feed, so the nearest same-kind quote on the same
line closes the match. Returns the number of characters consumed
including the closing quote. -/
def qScan (q : Nat) : List Nat → Option Nat
  | [] => none
  | c :: t => if c == q then some 1 else if c == 10 then none else (qScan q t).map (· + 1)

/-- Leftmost match of `RE_QUOTED` at the scan position. -/
def matchQuoted (_ : Option Nat) (s : List Nat) : Option Nat :=
  match s with
  | q :: t => if q == 39 || q == 34 then (qScan q t).map (· + 1) else none
  | [] => none

/-- Consume exactly `n` hexadecimal digits. -/
def hexChomp (n : Nat) (s : List Nat) : Option (List Nat) :=
  match n with
  | 0 => some s
  | n + 1 =>
    match s with
    | c :: t => if isHexCp c then hexChomp n t else none
    | [] => none

/-- Consume one expected character. -/
def chompChar (c : Nat) (s : List Nat) : Option (List Nat) :=
  match s with
  | x :: t => if x == c then some t else none
  | [] => none

/-- Match of `RE_GUID = \b[0-9a-fA-F]{8}(-[0-9a-fA-F]{4}){3}-[0-9a-fA-F]{12}\b`
at the scan position: the counted groups leave the engine no backtracking
choices, so the match is the literal 8-4-4-4-12 shape with a word
boundary on each side. -/
def matchGuid (prev : Option Nat) (s : List Nat) : Option Nat :=
  match s with
  | c :: _ =>
    if prevWord prev != isWordCp c then
      match hexChomp 8 s >>= chompChar 45 >>= hexChomp 4 >>= chompChar 45 >>=
            hexChomp 4 >>= chompChar 45 >>= hexChomp 4 >>= chompChar 45 >>= hexChomp 12 with
      | some rest =>
        match rest with
        | [] => some 36
        | d :: _ => if isWordCp d then none else some 36
      | none => none
    else none
  | [] => none

/-- Match of `RE_HEX = \b0x[0-9a-fA-F]+\b` at the scan position: a
shorter greedy run always leaves a hex digit (a word character) adjacent,
so the match is the maximal hex run, accepted only when the next
character is non-word or the end. -/
def matchHexLit (prev : Option Nat) (s : List Nat) : Option Nat :=
  match s with
  | c0 :: c1 :: t =>
    if c0 == 48 && c1 == 120 && !prevWord prev then
      let m := (t.takeWhile isHexCp).length
      if m == 0 then none
      else
        match t.drop m with
        | [] => some (2 + m)
        | d :: _ => if isWordCp d then none else some (2 + m)
    else none
  | _ => none

/-- Length of the maximal decimal-digit run. -/
def digitRun (s : List Nat) : Nat := (s.takeWhile isDigitCp).length

/-- One octet of `RE_IP`: `\d{1,3}` must consume a complete maximal digit
run (a shorter greedy choice leaves a digit where a literal `.` or `\b`
is required), so the run length must be 1..3. -/
def ipGroup (s : List Nat) : Option (Nat × List Nat) :=
  let r := digitRun s
  if 1 ≤ r && r ≤ 3 then some (r, s.drop r) else none

/-- Match of `RE_IP = \b\d{1,3}(?:\.\d{1,3}){3}\b` at the scan
position. -/
def matchIp (prev : Option Nat) (s : List Nat) : Option Nat :=
  if prevWord prev then none
  else
    match ipGroup s with
    | none => none
    | some (r1, s1) =>
      match chompChar 46 s1 with
      | none => none
      | some s1b =>
        match ipGroup s1b with
        | none => none
        | some (r2, s2) =>
          match chompChar 46 s2 with
          | none => none
          | some s2b =>
            match ipGroup s2b with
            | none => none
            | some (r3, s3) =>
              match chompChar 46 s3 with
              | none => none
              | some s3b =>
                match ipGroup s3b with
                | none => none
                | some (r4, s4) =>
                  match s4 with
                  | [] => some (r1 + r2 + r3 + r4 + 3)
                  | d :: _ => if isWordCp d then none else some (r1 + r2 + r3 + r4 + 3)

/-- Character class `[\w\.-]` of `RE_EMAIL`. -/
def emailChar (c : Nat) : Bool := isWordCp c || c == 46 || c == 45

/-- Match of `RE_EMAIL = \b[\w\.-]+@[\w\.-]+\.\w+\b` at the scan
position. Before the `@` the greedy class run is forced (the class
excludes `@`). After the `@`, backtracking settles on the rightmost `.`
inside the class run that is followed by a word character; `\w+` then
takes the maximal word run, whose end is always a boundary. -/
def matchEmail (prev : Option Nat) (s : List Nat) : Option Nat :=
  match s with
  | c :: _ =>
    if prevWord prev != isWordCp c then
      let a := (s.takeWhile emailChar).length
      if a == 0 then none
      else
        match chompChar 64 (s.drop a) with
        | none => none
        | some s2 =>
          let run2 := s2.takeWhile emailChar
          let cands := (List.range run2.length).filter (fun q =>
            decide (1 ≤ q) && run2.getD q 256 == 46 &&
            decide (q + 1 < run2.length) && isWordCp (run2.getD (q + 1) 256))
          match cands.getLast? with
          | none => none
          | some q =>
            let m := ((run2.drop (q + 1)).takeWhile isWordCp).length
            some (a + 1 + q + 1 + m)
    else none
  | [] => none

/-- Character class of `RE_PATH`: word characters, dash, slash,
backslash, dot. -/
def pathChar (c : Nat) : Bool := isWordCp c || c == 45 || c == 47 || c == 92 || c == 46

/-- Match of `RE_PATH` at the scan position: a drive prefix
`[A-Za-z]:\` or a slash, then a non-empty greedy run over `pathChar`
(no word boundaries in the pattern). -/
def matchPath (_ : Option Nat) (s : List Nat) : Option Nat :=
  let alt1 : Option Nat :=
    match s with
    | c :: c1 :: c2 :: t =>
      if isAlphaCp c && c1 == 58 && c2 == 92 then
        let m := (t.takeWhile pathChar).length
        if m == 0 then none else some (3 + m)
      else none
    | _ => none
  match alt1 with
  | some k => some k
  | none =>
    match s with
    | c :: t =>
      if c == 47 then
        let m := (t.takeWhile pathChar).length
        if m == 0 then none else some (1 + m)
      else none
    | [] => none

/-- Match of `RE_NUM = \b\d+\b` at the scan position: the maximal digit
run, accepted only between word boundaries. -/
def matchNum (prev : Option Nat) (s : List Nat) : Option Nat :=
  if prevWord prev then none
  else
    let m := digitRun s
    if m == 0 then none
    else
      match s.drop m with
      | [] => some m
      | d :: _ => if isWordCp d then none else some m

/-- Scan for a closing delimiter (`[^X]*X`): any characters, line feeds
included, up to the first occurrence. Returns the count consumed
including the closer. -/
def closeScan (close : Nat) : List Nat → Option Nat
  | [] => none
  | c :: t => if c == close then some 1 else (closeScan close t).map (· + 1)

/-- Match of `RE_BRACKETS = \[[^\]]*\]|\([^\)]*\)|\{[^\}]*\}` at the scan
position: the three alternatives start with distinct characters, so the
opener determines the branch. -/
def matchBrackets (_ : Option Nat) (s : List Nat) : Option Nat :=
  match s with
  | c :: t =>
    if c == 91 then (closeScan 93 t).map (· + 1)
    else if c == 40 then (closeScan 41 t).map (· + 1)
    else if c == 123 then (closeScan 125 t).map (· + 1)
    else none
  | [] => none

/-- Match of `RE_MULTI_WS = \s+` at the scan position. -/
def matchWs (_ : Option Nat) (s : List Nat) : Option Nat :=
  let m := (s.takeWhile isWsCp).length
  if m == 0 then none else some m

/-- Python `re.sub` driver: try the matcher at every position of the original
string, left to right; on a match emit the replacement and resume after
the matched text (whose last character becomes the new preceding
character for `\b`). The fuel decreases once per emitted character or
replacement, so `fuel ≥ s.length` runs the whole substitution. -/
def reSubGo (fuel : Nat) (m : Option Nat → List Nat → Option Nat) (repl : List Nat)
    (prev : Option Nat) (s : List Nat) : List Nat :=
  match fuel with
  | 0 => s
  | fuel + 1 =>
    match s with
    | [] => []
    | c :: t =>
      match m prev (c :: t) with
      | some k =>
        if k == 0 then c :: reSubGo fuel m repl (some c) t
        else repl ++ reSubGo fuel m repl (some ((c :: t).getD (k - 1) 0)) ((c :: t).drop k)
      | none => c :: reSubGo fuel m repl (some c) t

/-- Python `pattern.sub(repl, s)` for the patterns of `filtering.py`. -/
def reSub (m : Option Nat → List Nat → Option Nat) (repl : List Nat) (s : List Nat) :
    List Nat :=
  reSubGo s.length m repl none s

/-- Model of `normalize_message_for_cluster` from `filtering.py`, lines 23-40: the
eight substitutions in source order, whitespace collapsing, stripping,
and the 180-character cap with the U+2026 ellipsis marker. -/
def normalize_message_for_cluster (msg : List Nat) : List Nat :=
  let s0 := pyStrip msg
  let s1 := reSub matchQuoted (strCp "<str>") s0
  let s2 := reSub matchGuid (strCp "<guid>") s1
  let s3 := reSub matchHexLit (strCp "<hex>") s2
  let s4 := reSub matchIp (strCp "<ip>") s3
  let s5 := reSub matchEmail (strCp "<email>") s4
  let s6 := reSub matchPath (strCp "<path>") s5
  let s7 := reSub matchNum (strCp "<num>") s6
  let s8 := reSub matchBrackets [32] s7
  let s9 := pyStrip (reSub matchWs [32] s8)
  if 180 < s9.length then s9.take 180 ++ [8230] else s9

/-- Terminal outcome of `FilterWorker.run`: the `failed` emission for a
bad pattern (source line 70), the `finished` emission following the
"Filtering cancelled." status (lines 80-82), or the `finished` emission
following the "Filtering done" status (lines 114-116). -/
inductive FilterOutcome where
  | failedRegex : FilterOutcome
  | cancelled (rows : List Nat) : FilterOutcome
  | done (rows : List Nat) : FilterOutcome
deriving DecidableEq, Repr

/-- Does the polled cancellation flag read true at iteration `i`? The
flag is set asynchronously and never cleared, so a schedule is the first
iteration (if any) that observes it. -/
def cancelHit (cancelAt : Option Nat) (i : Nat) : Bool :=
  match cancelAt with
  | some c => c ≤ i
  | none => false

/-- The per-row predicate of `FilterWorker.run` (lines 84-105): level
whitelist on the precomputed level (unknown level 255 always kept),
minute-bucket equality, then the regex on the line decoded on demand
(`readline_at` with the source's default `max_bytes`). -/
def filterKeep (mm : Option (List Nat)) (idx : LogIndex) (mask : List (List Nat))
    (bucket : Option Nat) (rx : Option (List Nat → Bool)) (i : Nat) : Bool :=
  let lvlInt := if i < idx.level_ints.length then idx.level_ints.getD i 255 else 255
  let memb :=
    match intToLevelGet lvlInt with
    | some nm => mask.contains nm
    | none => false
  if !mask.isEmpty && lvlInt != 255 && !memb then false
  else
    let bucketOk :=
      match bucket with
      | none => true
      | some b =>
        let mk := if i < idx.minute_keys.length then idx.minute_keys.getD i 0 else 0
        mk == b
    if !bucketOk then false
    else
      match rx with
      | none => true
      | some r => r (readline_at mm (idx.offsets.getD i 0) (1024 * 1024))

/-- The scan loop of `FilterWorker.run` (lines 78-116): `n` counts the
iterations left (`i` runs to `i + n = total_lines`); the cancellation
flag is polled at the top of each iteration and delivers the partial
list; matching rows are appended in ascending order. -/
def filterLoop (mm : Option (List Nat)) (idx : LogIndex) (mask : List (List Nat))
    (bucket : Option Nat) (rx : Option (List Nat → Bool)) (cancelAt : Option Nat) :
    Nat → Nat → List Nat → FilterOutcome
  | 0, _, out => .done out
  | n + 1, i, out =>
    if cancelHit cancelAt i then .cancelled out
    else
      filterLoop mm idx mask bucket rx cancelAt n (i + 1)
        (if filterKeep mm idx mask bucket rx i then out ++ [i] else out)

/-- Model of `FilterWorker.run` from `filtering.py` (lines 62-118): the pattern is
compiled first when the regex flag is set and the pattern text strips
non-empty — `rxCompile` stands for Python's `re.compile`/`search`, giving
`none` exactly on a pattern whose compilation raises `re.error` — then
the rows `0..total_lines` are scanned. -/
def runFilter (mm : Option (List Nat)) (idx : LogIndex)
    (rxCompile : List Nat → Option (List Nat → Bool)) (regexText : List Nat)
    (useRegex : Bool) (mask : List (List Nat)) (bucket : Option Nat)
    (cancelAt : Option Nat) : FilterOutcome :=
  if useRegex && !(pyStrip regexText).isEmpty then
    match rxCompile regexText with
    | none => .failedRegex
    | some r => filterLoop mm idx mask bucket (some r) cancelAt idx.total_lines 0 []
  else filterLoop mm idx mask bucket none cancelAt idx.total_lines 0 []

/-- The matches the scan finds among the first `n` rows. -/
def filterMatches (mm : Option (List Nat)) (idx : LogIndex) (mask : List (List Nat))
    (bucket : Option Nat) (rx : Option (List Nat → Bool)) (n : Nat) : List Nat :=
  (List.range n).filter (filterKeep mm idx mask bucket rx)

/-- Terminal outcome of `ClusterWorker.run`: the `finished([])` emission
following the "Clustering cancelled." status, or the `finished(results)`
emission on completion. -/
inductive ClusterOutcome where
  | cancelled : ClusterOutcome
  | done (entries : List (Nat × List Nat × List Nat)) : ClusterOutcome
deriving DecidableEq, Repr

/-- The level names of the cheap error heuristic (`ClusterWorker.run`
line 160). -/
def errLevelWords : List (List Nat) := [strCp "ERROR", strCp "FATAL", strCp "CRITICAL"]

/-- Lines 154-171 of `ClusterWorker.run`: which line text a row
contributes, or `none` when the errors-only heuristic drops the row
without reading its full text. -/
def clusterLineOf (mm : Option (List Nat)) (idx : LogIndex) (onlyErrors : Bool)
    (row : Nat) : Option (List Nat) :=
  let lvlInt := if row < idx.level_ints.length then idx.level_ints.getD row 255 else 255
  let lvl := (intToLevelGet lvlInt).getD []
  if onlyErrors && !(errLevelWords.contains lvl) then
    let pref := readline_at mm (idx.offsets.getD row 0) 4096
    let up := pref.map asciiUpper
    if !(occursIn (strCp "EXCEPTION") up) && !(occursIn (strCp "TRACEBACK") up) &&
       !(occursIn (strCp "FAILED") up) && !(occursIn (strCp "ERROR") up) then none
    else some pref
  else some (readline_at mm (idx.offsets.getD row 0) (64 * 1024))

/-- Python `str.lstrip(chars)`. -/
def pyLstrip (s : List Nat) (cs : List Nat) : List Nat := s.dropWhile (fun c => cs.contains c)

/-- Lines 173-181 of `ClusterWorker.run`: strip a detected timestamp and
the following separators, then normalize into the cluster key. -/
def clusterKeyOf (line : List Nat) : List Nat :=
  let msg :=
    if 32 < line.length && (parse_ts_compact line).isSome then
      pyLstrip (line.drop 19) [32, 45, 9, 124]
    else line
  normalize_message_for_cluster msg

/-- Python `counts[key] += 1` on an insertion-ordered association list (the
model of Python's `Counter`, whose underlying dict appends a new key at
the end and updates an existing key in place). -/
def bump (counts : List (List Nat × Nat)) (k : List Nat) : List (List Nat × Nat) :=
  match counts with
  | [] => [(k, 1)]
  | (k0, c0) :: rest => if k0 == k then (k0, c0 + 1) :: rest else (k0, c0) :: bump rest k

/-- Update in the style of `sample.setdefault` (lines 186-187): store the first
sample line (capped at 5000 characters) per key. -/
def sampleAdd (sample : List (List Nat × List Nat)) (k line : List Nat) :
    List (List Nat × List Nat) :=
  if (sample.find? (fun p => p.1 == k)).isSome then sample
  else sample ++ [(k, line.take 5000)]

/-- Lookup `sample.get(k, "")`. -/
def sampleGet (sample : List (List Nat × List Nat)) (k : List Nat) : List Nat :=
  match sample.find? (fun p => p.1 == k) with
  | some p => p.2
  | none => []

/-- Stable descending insertion by count: an element is placed before
the first entry whose count does not exceed it, so earlier elements
precede later ones of equal count. -/
def insertDesc (x : List Nat × Nat) : List (List Nat × Nat) → List (List Nat × Nat)
  | [] => [x]
  | y :: t => if y.2 ≤ x.2 then x :: y :: t else y :: insertDesc x t

/-- Stable sort by descending count: the model of the stable
`sorted(..., reverse=True)` underlying `Counter.most_common`. -/
def sortDesc : List (List Nat × Nat) → List (List Nat × Nat)
  | [] => []
  | a :: rest => insertDesc a (sortDesc rest)

/-- Python `Counter.most_common(n)`. -/
def mostCommon (counts : List (List Nat × Nat)) (n : Nat) : List (List Nat × Nat) :=
  (sortDesc counts).take n

/-- The row loop of `ClusterWorker.run` (lines 148-200): poll the
cancellation flag each row, drop rows per the errors-only heuristic and
empty keys, count per normalized key, keep first samples, and on
completion emit `(count, key, sample)` triples for the top keys. -/
def clusterLoop (mm : Option (List Nat)) (idx : LogIndex) (onlyErrors : Bool)
    (maxClusters : Nat) (cancelAt : Option Nat) :
    List Nat → Nat → List (List Nat × Nat) → List (List Nat × List Nat) → ClusterOutcome
  | [], _, counts, sample =>
    .done ((mostCommon counts maxClusters).map (fun p => (p.2, p.1, sampleGet sample p.1)))
  | row :: rest, j, counts, sample =>
    if cancelHit cancelAt j then .cancelled
    else
      match clusterLineOf mm idx onlyErrors row with
      | none => clusterLoop mm idx onlyErrors maxClusters cancelAt rest (j + 1) counts sample
      | some line =>
        let key := clusterKeyOf line
        if key.isEmpty then
          clusterLoop mm idx onlyErrors maxClusters cancelAt rest (j + 1) counts sample
        else
          clusterLoop mm idx onlyErrors maxClusters cancelAt rest (j + 1)
            (bump counts key) (sampleAdd sample key line)

/-- Model of `ClusterWorker.run` from `filtering.py` (lines 140-202). -/
def runCluster (mm : Option (List Nat)) (idx : LogIndex) (viewRows : List Nat)
    (onlyErrors : Bool) (maxClusters : Nat) (cancelAt : Option Nat) : ClusterOutcome :=
  clusterLoop mm idx onlyErrors maxClusters cancelAt viewRows 0 [] []

/-- The normalized key a row contributes to the counter, or `none` when
the row is dropped (by the errors-only heuristic or an empty key). -/
def clusterRowKey (mm : Option (List Nat)) (idx : LogIndex) (onlyErrors : Bool)
    (row : Nat) : Option (List Nat) :=
  match clusterLineOf mm idx onlyErrors row with
  | none => none
  | some line =>
    let key := clusterKeyOf line
    if key.isEmpty then none else some key

/-- The normalized keys of the rows a cluster run keeps, in row order. -/
def clusterKeptKeys (mm : Option (List Nat)) (idx : LogIndex) (onlyErrors : Bool)
    (rows : List Nat) : List (List Nat) :=
  rows.filterMap (clusterRowKey mm idx onlyErrors)

/-- First-seen order of a key list: each key at its first occurrence. -/
def firstSeen : List (List Nat) → List (List Nat)
  | [] => []
  | k :: rest => k :: (firstSeen rest).filter (fun x => !(x == k))

/-! ## Theorems -/

lemma utf8Go_nil : ∀ fuel, utf8Go fuel [] = [] := by
  intro fuel; cases fuel <;> simp [utf8Go]

lemma utf8Go_length_le : ∀ fuel l, (utf8Go fuel l).length ≤ fuel := by
  intro fuel
  induction fuel with
  | zero => intro l; simp [utf8Go]
  | succ n ih =>
    intro l
    cases l with
    | nil => simp [utf8Go]
    | cons b rest =>
      simp only [utf8Go]
      repeat' split
      all_goals simp only [List.length_cons, List.length_nil, List.length_singleton]
      all_goals first
        | omega
        | exact Nat.add_le_add_right (ih _) 1

lemma utf8DecodeReplace_length_le (l : List Nat) :
    (utf8DecodeReplace l).length ≤ l.length :=
  utf8Go_length_le l.length l

lemma getLast?_some_eq_append {l : List Nat} {x : Nat} (h : l.getLast? = some x) :
    l.dropLast ++ [x] = l := by
  induction l with
  | nil => simp at h
  | cons a t ih =>
    cases t with
    | nil => simp at h; simp [h]
    | cons b t2 =>
      rw [List.getLast?_cons_cons] at h
      have h2 := ih h
      simp only [List.dropLast_cons₂, List.cons_append, h2]

lemma readlineRaw_length_le (data : List Nat) (offset maxBytes : Nat) :
    (readlineRaw data offset maxBytes).length ≤ maxBytes := by
  unfold readlineRaw pySlice
  cases hfind : findNl data offset with
  | none =>
    by_cases hc : data.length - offset > maxBytes
    · simp only [hfind, if_pos hc, List.length_drop, List.length_take]
      omega
    · simp only [hfind, if_neg hc, List.length_drop, List.length_take]
      omega
  | some i =>
    by_cases hc : i - offset > maxBytes
    · simp only [hfind, if_pos hc, List.length_drop, List.length_take]
      omega
    · simp only [hfind, if_neg hc, List.length_drop, List.length_take]
      omega

lemma stripCr_length_le (b : List Nat) : (stripCr b).length ≤ b.length := by
  unfold stripCr
  by_cases h : b.getLast? == some 13
  · simp only [if_pos h, List.length_dropLast]
    omega
  · simp only [if_neg h]
    omega

/-- C9. `readline_at` is a total function of the accessor state: with no
mapping open it returns the empty string; with a mapping open it returns
the replacement-decode of the raw line bytes — whose count never exceeds
`maxBytes`, so neither does the decoded length — after removing at most
one trailing carriage return (exactly one when the raw bytes end in
one). -/
theorem readline_at_total_spec (data : List Nat) (offset maxBytes : Nat) :
    readline_at none offset maxBytes = [] ∧
    (readline_at (some data) offset maxBytes).length ≤ maxBytes ∧
    (readlineRaw data offset maxBytes).length ≤ maxBytes ∧
    ((stripCr (readlineRaw data offset maxBytes) = readlineRaw data offset maxBytes ∧
      (readlineRaw data offset maxBytes).getLast? ≠ some 13) ∨
     (∃ core, readlineRaw data offset maxBytes = core ++ [13] ∧
      stripCr (readlineRaw data offset maxBytes) = core)) ∧
    readline_at (some data) offset maxBytes =
      utf8DecodeReplace (stripCr (readlineRaw data offset maxBytes)) := by
  refine ⟨rfl, ?_, readlineRaw_length_le data offset maxBytes, ?_, rfl⟩
  · calc (readline_at (some data) offset maxBytes).length
        ≤ (stripCr (readlineRaw data offset maxBytes)).length :=
          utf8DecodeReplace_length_le _
      _ ≤ (readlineRaw data offset maxBytes).length := stripCr_length_le _
      _ ≤ maxBytes := readlineRaw_length_le data offset maxBytes
  · by_cases h : (readlineRaw data offset maxBytes).getLast? == some 13
    · right
      refine ⟨(readlineRaw data offset maxBytes).dropLast, ?_, ?_⟩
      · exact (getLast?_some_eq_append (by simpa using h)).symm
      · unfold stripCr
        rw [if_pos h]
    · left
      constructor
      · unfold stripCr
        rw [if_neg h]
      · simpa using h

/-- C4. The timestamp parser inspects only the first 19 characters and
behaves exactly as the specification describes: `none` unless the five
separator positions hold and all six numeric fields parse, else the two
digit-packed keys. -/
theorem parse_ts_compact_spec (line : List Nat) :
    parse_ts_compact line = parse_ts_compact (line.take 19) ∧
    parse_ts_compact line = specTimestampParse line := by
  refine ⟨?_, rfl⟩
  by_cases h : line.length < 19
  · have h2 : (line.take 19).length < 19 := by rw [List.length_take]; omega
    simp [parse_ts_compact, h, h2]
  · have h2 : ¬ (line.take 19).length < 19 := by rw [List.length_take]; omega
    simp [parse_ts_compact, h, h2, List.take_take]

/-- C1. On the six-byte file `b"ab\ncd\n"` read with chunk size 4, the
second line `cd` spans the chunk boundary; the metadata arrays stay in
lock step and hold the placeholder, but the offset recorded at slot 2 is
7 — past the end of the 6-byte file — because `pos` has been advanced by
the whole chunk while the buffer still carried the partial line, so
`offsets[i]` is not the start offset of the next line as the claim (and
the source comment `# Next line starts at pos + nl + 1`) state. -/
theorem indexer_offset_slot_mismatch :
    ∃ idx : LogIndex,
      runIndex [97, 98, 10, 99, 100, 10] 4 = some idx ∧
      idx.offsets = [0, 3, 7] ∧
      idx.minute_keys = [0, 0, 0] ∧
      idx.level_ints = [255, 255, 255] ∧
      idx.total_lines = 2 ∧
      idx.file_size = 6 ∧
      idx.offsets.getD 2 0 ≠ 6 := by
  refine ⟨{ offsets := [0, 3, 7], minute_keys := [0, 0, 0],
            level_ints := [255, 255, 255], total_lines := 2, file_size := 6 },
          ?_, rfl, rfl, rfl, rfl, rfl, ?_⟩
  · decide
  · decide

/-- C3. On the file `b"a\nbbb\nc\nd\nxx"` read with chunk size 4, lines
span chunk boundaries and the recorded offsets come out as
`[0, 2, 8, 10, 10]`: slot 3 and slot 4 are equal, so the offsets of a
completed run are not strictly increasing. -/
theorem indexer_offsets_not_strictly_increasing :
    ∃ idx : LogIndex,
      runIndex [97, 10, 98, 98, 98, 10, 99, 10, 100, 10, 120, 120] 4 = some idx ∧
      idx.total_lines = 4 ∧
      idx.offsets = [0, 2, 8, 10, 10] ∧
      ¬ idx.offsets.getD 3 0 < idx.offsets.getD 4 0 := by
  refine ⟨{ offsets := [0, 2, 8, 10, 10], minute_keys := [0, 0, 0, 0, 0],
            level_ints := [255, 255, 255, 255, 255], total_lines := 4, file_size := 12 },
          ?_, rfl, rfl, ?_⟩
  · decide
  · decide

lemma pyFindNl_none {l : List Nat} (h : pyFindNl l = none) : l.count 10 = 0 := by
  induction l with
  | nil => simp
  | cons b t ih =>
    unfold pyFindNl at h
    by_cases hb : (b == 10) = true
    · rw [if_pos hb] at h
      simp at h
    · rw [if_neg hb] at h
      have ht : pyFindNl t = none := by
        cases hft : pyFindNl t with
        | none => rfl
        | some i => rw [hft] at h; simp at h
      have hb2 : ¬ b = 10 := by simpa using hb
      simp [List.count_cons, ih ht, hb2]

lemma pyFindNl_some : ∀ {l : List Nat} {i : Nat}, pyFindNl l = some i →
    i < l.length ∧ (l.take i).count 10 = 0 ∧ l.drop i = 10 :: l.drop (i + 1) := by
  intro l
  induction l with
  | nil => intro i h; simp [pyFindNl] at h
  | cons b t ih =>
    intro i h
    unfold pyFindNl at h
    by_cases hb : (b == 10) = true
    · rw [if_pos hb] at h
      have hi : i = 0 := by simpa using h.symm
      have hb2 : b = 10 := by simpa using hb
      subst hi; subst hb2
      simp
    · rw [if_neg hb] at h
      cases hft : pyFindNl t with
      | none => rw [hft] at h; simp at h
      | some j =>
        rw [hft] at h
        simp at h
        obtain ⟨h1, h2, h3⟩ := ih hft
        subst h
        have hb2 : ¬ b = 10 := by simpa using hb
        refine ⟨by simp; omega, ?_, ?_⟩
        · simp [List.count_cons, h2, hb2]
        · simpa using h3

lemma pyFindNl_some_count {l : List Nat} {i : Nat} (h : pyFindNl l = some i) :
    l.count 10 = 1 + (l.drop (i + 1)).count 10 := by
  obtain ⟨h1, h2, h3⟩ := pyFindNl_some h
  conv_lhs => rw [← List.take_append_drop i l]
  rw [List.count_append, h2, h3]
  simp [List.count_cons]
  omega

lemma scanBuf_success : ∀ (fuel base : Nat) (rest : List Nat) ts leftover,
    rest.length ≤ fuel →
    scanBuf fuel base rest = some (ts, leftover) →
    ts.length = rest.count 10 ∧ leftover.count 10 = 0 := by
  intro fuel
  induction fuel with
  | zero =>
    intro base rest ts leftover hf h
    have hr : rest = [] := List.length_eq_zero.mp (Nat.le_zero.mp hf)
    subst hr
    unfold scanBuf at h
    simp at h
    obtain ⟨h1, h2⟩ := h
    subst h1; subst h2
    simp
  | succ n ih =>
    intro base rest ts leftover hf h
    unfold scanBuf at h
    cases hfind : pyFindNl rest with
    | none =>
      rw [hfind] at h
      simp at h
      obtain ⟨h1, h2⟩ := h
      subst h1; subst h2
      exact ⟨by simp [pyFindNl_none hfind], pyFindNl_none hfind⟩
    | some nl =>
      rw [hfind] at h
      dsimp only at h
      cases hmeta : lineMeta (rest.take nl) with
      | none => rw [hmeta] at h; simp at h
      | some meta =>
        rw [hmeta] at h
        cases hrec : scanBuf n (base + nl + 1) (rest.drop (nl + 1)) with
        | none => rw [hrec] at h; simp at h
        | some pr =>
          obtain ⟨ts2, leftover2⟩ := pr
          rw [hrec] at h
          simp at h
          obtain ⟨h1, h2⟩ := h
          have hlt := (pyFindNl_some hfind).1
          have hlen : (rest.drop (nl + 1)).length ≤ n := by
            rw [List.length_drop]; omega
          obtain ⟨ih1, ih2⟩ := ih (base + nl + 1) _ ts2 leftover2 hlen hrec
          subst h2
          constructor
          · rw [← h1]
            simp only [List.length_cons, ih1]
            rw [pyFindNl_some_count hfind]
            omega
          · exact ih2

lemma idxLoop_length {chunk : Nat} (hc : 0 < chunk) :
    ∀ fuel (remaining buf : List Nat) (pos : Nat) acc ts,
      remaining.length < fuel → buf.count 10 = 0 →
      idxLoop fuel chunk remaining buf pos acc = some ts →
      ts.length = acc.length + remaining.count 10 := by
  intro fuel
  induction fuel with
  | zero =>
    intro remaining buf pos acc ts hf
    exact absurd hf (Nat.not_lt_zero _)
  | succ n ih =>
    intro remaining buf pos acc ts hf hbuf h
    rw [idxLoop] at h
    by_cases hdata : (remaining.take chunk).isEmpty = true
    · rw [if_pos hdata] at h
      have hrem : remaining = [] := by
        rcases List.take_eq_nil_iff.mp (List.isEmpty_iff.mp hdata) with h0 | h0
        · omega
        · exact h0
      subst hrem
      simp at h
      simp [← h]
    · rw [if_neg hdata] at h
      dsimp only at h
      cases hscan : scanBuf (buf ++ remaining.take chunk).length pos
          (buf ++ remaining.take chunk) with
      | none => rw [hscan] at h; simp at h
      | some pr =>
        obtain ⟨emitted, leftover⟩ := pr
        rw [hscan] at h
        obtain ⟨hs1, hs2⟩ :=
          scanBuf_success _ pos (buf ++ remaining.take chunk) emitted leftover le_rfl hscan
        have hrem : remaining ≠ [] := by
          intro h0
          subst h0
          simp at hdata
        have hlen : (remaining.drop chunk).length < n := by
          rw [List.length_drop]
          have : 1 ≤ remaining.length := by
            cases remaining with
            | nil => exact absurd rfl hrem
            | cons a t => simp
          omega
        have := ih (remaining.drop chunk) leftover (pos + (remaining.take chunk).length)
          (acc ++ emitted) ts hlen hs2 h
        rw [this, List.length_append, hs1, List.count_append, hbuf]
        have hsplit : remaining.count 10 =
            (remaining.take chunk).count 10 + (remaining.drop chunk).count 10 := by
          conv_lhs => rw [← List.take_append_drop chunk remaining]
          rw [List.count_append]
        omega

/-- C2. A completed, non-cancelled indexer run (with any positive chunk
size) counts exactly the line-feed bytes of the file: `total_lines`
equals the number of `0x0A` bytes, so a final unterminated fragment is
never counted. -/
theorem indexer_total_lines_eq_newline_count (content : List Nat) (chunk : Nat)
    (idx : LogIndex) (hc : 0 < chunk) (h : runIndex content chunk = some idx) :
    idx.total_lines = content.count 10 := by
  unfold runIndex at h
  cases hl : idxLoop (content.length + 1) chunk content [] 0 [] with
  | none => rw [hl] at h; simp at h
  | some ts =>
    rw [hl] at h
    simp at h
    have hlen := idxLoop_length hc (content.length + 1) content [] 0 [] ts
      (by omega) (by simp) hl
    rw [← h]
    simpa using hlen

/-- Witness for C2 on the two-line file `b"a\nb\n"` with chunk size 2. -/
theorem indexer_total_lines_eq_newline_count_witness :
    ({ offsets := [0, 2, 4], minute_keys := [0, 0, 0], level_ints := [255, 255, 255],
       total_lines := 2, file_size := 4 } : LogIndex).total_lines =
      ([97, 10, 98, 10] : List Nat).count 10 :=
  indexer_total_lines_eq_newline_count [97, 10, 98, 10] 2 _ (by decide) (by decide)

/-- C8 counterexample. Normalizing `"'a\nb'"` gives `"'a b'"` (the lazy
quoted-string pattern cannot cross the line feed, and whitespace
collapsing then turns the line feed into a space), and normalizing that
again gives `"<str>"`, so the normalization function is not
idempotent. -/
theorem normalize_not_idempotent_cex :
    normalize_message_for_cluster (normalize_message_for_cluster [39, 97, 10, 98, 39]) ≠
      normalize_message_for_cluster [39, 97, 10, 98, 39] := by decide

lemma filterLoop_no_cancel (mm : Option (List Nat)) (idx : LogIndex) (mask : List (List Nat))
    (bucket : Option Nat) (rx : Option (List Nat → Bool)) :
    ∀ n i out, filterLoop mm idx mask bucket rx none n i out =
      .done (out ++ (List.range' i n).filter (filterKeep mm idx mask bucket rx)) := by
  intro n
  induction n with
  | zero => intro i out; simp [filterLoop]
  | succ m ih =>
    intro i out
    by_cases hk : filterKeep mm idx mask bucket rx i = true
    · simp [filterLoop, cancelHit, hk, ih, List.range'_succ]
    · simp [filterLoop, cancelHit, hk, ih, List.range'_succ]

lemma filterLoop_cancelled (mm : Option (List Nat)) (idx : LogIndex) (mask : List (List Nat))
    (bucket : Option Nat) (rx : Option (List Nat → Bool)) (c : Nat) :
    ∀ n i out, i ≤ c → c < i + n →
      filterLoop mm idx mask bucket rx (some c) n i out =
        .cancelled (out ++ (List.range' i (c - i)).filter (filterKeep mm idx mask bucket rx)) := by
  intro n
  induction n with
  | zero => intro i out h1 h2; omega
  | succ m ih =>
    intro i out h1 h2
    by_cases hci : c = i
    · subst hci
      have hch : cancelHit (some c) c = true := by simp [cancelHit]
      simp [filterLoop, hch]
    · have hch : cancelHit (some c) i = false := by
        simp only [cancelHit, decide_eq_false_iff_not]
        omega
      have ihh := ih (i + 1)
        (if filterKeep mm idx mask bucket rx i = true then out ++ [i] else out)
        (by omega) (by omega)
      have hsub : c - i = (c - (i + 1)) + 1 := by omega
      rw [filterLoop, hch]
      simp only [Bool.false_eq_true, if_false]
      rw [hsub, List.range'_succ]
      by_cases hk : filterKeep mm idx mask bucket rx i = true
      · rw [if_pos hk] at ihh ⊢
        rw [ihh]
        simp [hk, List.filter_cons]
      · rw [if_neg hk] at ihh ⊢
        rw [ihh]
        simp [hk, List.filter_cons]

/-- How `FilterWorker.run` resolves its regex argument before scanning:
`none` when compilation fails, otherwise the active search predicate (or
no predicate when the flag is off or the pattern strips empty). -/
def resolveRx (rxCompile : List Nat → Option (List Nat → Bool)) (regexText : List Nat)
    (useRegex : Bool) : Option (Option (List Nat → Bool)) :=
  if useRegex && !(pyStrip regexText).isEmpty then
    match rxCompile regexText with
    | none => none
    | some r => some (some r)
  else some none

lemma runFilter_eq_loop (mm : Option (List Nat)) (idx : LogIndex)
    (rxCompile : List Nat → Option (List Nat → Bool)) (regexText : List Nat)
    (useRegex : Bool) (mask : List (List Nat)) (bucket : Option Nat)
    (cancelAt : Option Nat) (rx : Option (List Nat → Bool))
    (hres : resolveRx rxCompile regexText useRegex = some rx) :
    runFilter mm idx rxCompile regexText useRegex mask bucket cancelAt =
      filterLoop mm idx mask bucket rx cancelAt idx.total_lines 0 [] := by
  unfold resolveRx at hres
  unfold runFilter
  by_cases hcond : (useRegex && !(pyStrip regexText).isEmpty) = true
  · rw [if_pos hcond] at hres ⊢
    cases hcomp : rxCompile regexText with
    | none => rw [hcomp] at hres; simp at hres
    | some r =>
      rw [hcomp] at hres
      simp at hres
      rw [← hres]
  · rw [if_neg hcond] at hres ⊢
    simp at hres
    rw [← hres]

/-- C5. Cancelling a filter run mid-scan (at any iteration `c` short of
`total_lines`) delivers the rows matched so far through the distinct
"cancelled" outcome — not the "done" outcome an uncancelled run of the
same predicate over the same index and file produces — and that partial
list is a prefix of the uncancelled run's matches, so its length never
exceeds the full match count. -/
theorem filter_cancel_partial_result (mm : Option (List Nat)) (idx : LogIndex)
    (rxCompile : List Nat → Option (List Nat → Bool)) (regexText : List Nat)
    (useRegex : Bool) (mask : List (List Nat)) (bucket : Option Nat)
    (rx : Option (List Nat → Bool)) (c : Nat)
    (hres : resolveRx rxCompile regexText useRegex = some rx)
    (hc : c < idx.total_lines) :
    runFilter mm idx rxCompile regexText useRegex mask bucket (some c) =
      .cancelled (filterMatches mm idx mask bucket rx c) ∧
    runFilter mm idx rxCompile regexText useRegex mask bucket none =
      .done (filterMatches mm idx mask bucket rx idx.total_lines) ∧
    (∃ t, filterMatches mm idx mask bucket rx c ++ t =
      filterMatches mm idx mask bucket rx idx.total_lines) ∧
    (filterMatches mm idx mask bucket rx c).length ≤
      (filterMatches mm idx mask bucket rx idx.total_lines).length := by
  have hsplit : ∃ t, filterMatches mm idx mask bucket rx c ++ t =
      filterMatches mm idx mask bucket rx idx.total_lines := by
    refine ⟨(List.range' c (idx.total_lines - c)).filter
      (filterKeep mm idx mask bucket rx), ?_⟩
    unfold filterMatches
    rw [← List.filter_append]
    congr 1
    rw [List.range_eq_range', List.range_eq_range']
    have hr := List.range'_append 0 c (idx.total_lines - c) 1
    simp only [Nat.zero_add, Nat.one_mul] at hr
    have h2 : idx.total_lines - c + c = idx.total_lines := by omega
    rw [h2] at hr
    exact hr
  refine ⟨?_, ?_, hsplit, ?_⟩
  · rw [runFilter_eq_loop mm idx rxCompile regexText useRegex mask bucket (some c) rx hres]
    rw [filterLoop_cancelled mm idx mask bucket rx c idx.total_lines 0 [] (Nat.zero_le c)
      (by omega)]
    unfold filterMatches
    rw [List.range_eq_range']
    simp
  · rw [runFilter_eq_loop mm idx rxCompile regexText useRegex mask bucket none rx hres]
    rw [filterLoop_no_cancel mm idx mask bucket rx idx.total_lines 0]
    unfold filterMatches
    rw [List.range_eq_range']
    simp
  · obtain ⟨t, ht⟩ := hsplit
    rw [← ht, List.length_append]
    omega

/-- Witness for C5: a one-line index whose scan is cancelled at
iteration 0. -/
theorem filter_cancel_partial_result_witness :
    runFilter (some [97, 10])
        { offsets := [0, 2], minute_keys := [0, 0], level_ints := [255, 255],
          total_lines := 1, file_size := 2 }
        (fun _ => none) [] false [] none (some 0) =
      .cancelled (filterMatches (some [97, 10])
        { offsets := [0, 2], minute_keys := [0, 0], level_ints := [255, 255],
          total_lines := 1, file_size := 2 } [] none none 0) ∧
    runFilter (some [97, 10])
        { offsets := [0, 2], minute_keys := [0, 0], level_ints := [255, 255],
          total_lines := 1, file_size := 2 }
        (fun _ => none) [] false [] none none =
      .done (filterMatches (some [97, 10])
        { offsets := [0, 2], minute_keys := [0, 0], level_ints := [255, 255],
          total_lines := 1, file_size := 2 } [] none none 1) ∧
    (∃ t, filterMatches (some [97, 10])
        { offsets := [0, 2], minute_keys := [0, 0], level_ints := [255, 255],
          total_lines := 1, file_size := 2 } [] none none 0 ++ t =
      filterMatches (some [97, 10])
        { offsets := [0, 2], minute_keys := [0, 0], level_ints := [255, 255],
          total_lines := 1, file_size := 2 } [] none none 1) ∧
    (filterMatches (some [97, 10])
        { offsets := [0, 2], minute_keys := [0, 0], level_ints := [255, 255],
          total_lines := 1, file_size := 2 } [] none none 0).length ≤
    (filterMatches (some [97, 10])
        { offsets := [0, 2], minute_keys := [0, 0], level_ints := [255, 255],
          total_lines := 1, file_size := 2 } [] none none 1).length :=
  filter_cancel_partial_result (some [97, 10])
    { offsets := [0, 2], minute_keys := [0, 0], level_ints := [255, 255],
      total_lines := 1, file_size := 2 }
    (fun _ => none) [] false [] none none 0 rfl (by decide)

/-- C6. A set regex flag with a pattern whose text strips non-empty and
whose compilation fails makes the whole filter run fail with the
regex-syntax outcome — a constructor distinct from every row-delivering
outcome — for every mapping, index, mask, bucket and cancellation
schedule, i.e. before any row is consulted. -/
theorem filter_invalid_regex_fails_before_scan
    (mm : Option (List Nat)) (idx : LogIndex)
    (rxCompile : List Nat → Option (List Nat → Bool)) (regexText : List Nat)
    (mask : List (List Nat)) (bucket : Option Nat) (cancelAt : Option Nat)
    (hstrip : (pyStrip regexText).isEmpty = false)
    (hbad : rxCompile regexText = none) :
    runFilter mm idx rxCompile regexText true mask bucket cancelAt = .failedRegex := by
  simp [runFilter, hstrip, hbad]

/-- Witness for C6 at the concrete invalid pattern `"("`. -/
theorem filter_invalid_regex_fails_before_scan_witness :
    runFilter none
      { offsets := [0], minute_keys := [0], level_ints := [255],
        total_lines := 0, file_size := 0 }
      (fun _ => none) [40] true [] none none = .failedRegex :=
  filter_invalid_regex_fails_before_scan none _ (fun _ => none) [40] [] none none
    (by decide) rfl

/-- Lookup `counts[k]` with default 0, on the association-list counter. -/
def countsGet (counts : List (List Nat × Nat)) (k : List Nat) : Nat :=
  match counts.find? (fun p => p.1 == k) with
  | some p => p.2
  | none => 0

lemma bump_map_fst (k : List Nat) :
    ∀ acc, (bump acc k).map Prod.fst =
      if k ∈ acc.map Prod.fst then acc.map Prod.fst else acc.map Prod.fst ++ [k] := by
  intro acc
  induction acc with
  | nil => simp [bump]
  | cons p t ih =>
    obtain ⟨k0, c0⟩ := p
    unfold bump
    by_cases hk : (k0 == k) = true
    · have he : k0 = k := by simpa using hk
      subst he
      simp [hk]
    · have hne : ¬ k0 = k := by simpa using hk
      rw [if_neg hk]
      by_cases hc : k ∈ t.map Prod.fst
      · simp [hc, ih, Ne.symm hne]
      · simp [hc, ih, Ne.symm hne]

lemma bump_fst_nodup {acc : List (List Nat × Nat)} {k : List Nat}
    (h : (acc.map Prod.fst).Nodup) : ((bump acc k).map Prod.fst).Nodup := by
  rw [bump_map_fst]
  by_cases hc : k ∈ acc.map Prod.fst
  · simp [hc, h]
  · simp [hc, h, List.nodup_append]

lemma countsGet_cons {k0 : List Nat} {c0 : Nat} {l : List (List Nat × Nat)} {k : List Nat} :
    countsGet ((k0, c0) :: l) k = if (k0 == k) = true then c0 else countsGet l k := by
  unfold countsGet
  by_cases hk : (k0 == k) = true
  · simp [List.find?, hk]
  · simp [List.find?, hk]

lemma countsGet_bump_self (k : List Nat) :
    ∀ acc, countsGet (bump acc k) k = countsGet acc k + 1 := by
  intro acc
  induction acc with
  | nil => simp [bump, countsGet, List.find?]
  | cons p t ih =>
    obtain ⟨k0, c0⟩ := p
    by_cases hk : (k0 == k) = true
    · unfold bump
      rw [if_pos hk]
      rw [countsGet_cons, countsGet_cons, if_pos hk, if_pos hk]
    · unfold bump
      rw [if_neg hk]
      rw [countsGet_cons, countsGet_cons, if_neg hk, if_neg hk]
      exact ih

lemma countsGet_bump_other (k k2 : List Nat) (h : ¬ k2 = k) :
    ∀ acc, countsGet (bump acc k) k2 = countsGet acc k2 := by
  intro acc
  induction acc with
  | nil =>
    have hkk : (k == k2) = false := by simp [Ne.symm h]
    simp [bump, countsGet, List.find?, hkk]
  | cons p t ih =>
    obtain ⟨k0, c0⟩ := p
    by_cases hk : (k0 == k) = true
    · unfold bump
      rw [if_pos hk]
      have he : k0 = k := by simpa using hk
      subst he
      have h2 : (k0 == k2) = false := by simp [Ne.symm h]
      rw [countsGet_cons, countsGet_cons, if_neg (by simp [h2]), if_neg (by simp [h2])]
    · unfold bump
      rw [if_neg hk]
      rw [countsGet_cons, countsGet_cons]
      by_cases hk2 : (k0 == k2) = true
      · rw [if_pos hk2, if_pos hk2]
      · rw [if_neg hk2, if_neg hk2]
        exact ih

lemma foldl_bump_countsGet (keys : List (List Nat)) : ∀ acc k,
    countsGet (List.foldl bump acc keys) k = countsGet acc k + keys.count k := by
  induction keys with
  | nil => simp
  | cons k0 rest ih =>
    intro acc k
    simp only [List.foldl_cons]
    rw [ih (bump acc k0) k]
    by_cases hk : k = k0
    · subst hk
      rw [countsGet_bump_self]
      simp [List.count_cons]
      omega
    · rw [countsGet_bump_other k0 k hk]
      simp [List.count_cons, hk]

lemma foldl_bump_fst_nodup (keys : List (List Nat)) :
    ∀ acc, (acc.map Prod.fst).Nodup →
      ((List.foldl bump acc keys).map Prod.fst).Nodup := by
  induction keys with
  | nil => intro acc h; simpa using h
  | cons k0 rest ih =>
    intro acc h
    simp only [List.foldl_cons]
    exact ih (bump acc k0) (bump_fst_nodup h)

lemma foldl_bump_map_fst (keys : List (List Nat)) : ∀ acc,
    (List.foldl bump acc keys).map Prod.fst =
      acc.map Prod.fst ++
        (firstSeen keys).filter (fun k => decide (¬ k ∈ acc.map Prod.fst)) := by
  induction keys with
  | nil => intro acc; simp [firstSeen]
  | cons k0 rest ih =>
    intro acc
    have hfs : firstSeen (k0 :: rest) = k0 :: (firstSeen rest).filter (fun x => !(x == k0)) :=
      rfl
    simp only [List.foldl_cons]
    rw [ih (bump acc k0), bump_map_fst, hfs, List.filter_cons]
    by_cases hc : k0 ∈ acc.map Prod.fst
    · rw [if_pos hc]
      have hk0 : decide (¬ k0 ∈ acc.map Prod.fst) = false := by simp [hc]
      rw [hk0]
      simp only [Bool.false_eq_true, if_false]
      congr 1
      rw [List.filter_filter]
      apply Eq.symm
      apply List.filter_congr
      intro a _
      by_cases ha : a = k0
      · subst ha
        simp [hc]
      · simp [ha]
    · rw [if_neg hc]
      have hk0 : decide (¬ k0 ∈ acc.map Prod.fst) = true := by simp [hc]
      rw [hk0]
      simp only [if_true]
      rw [← List.append_cons]
      congr 1
      rw [List.filter_filter]
      congr 1
      apply List.filter_congr
      intro a _
      by_cases ha : a = k0
      · subst ha
        simp
      · by_cases hm : a ∈ List.map Prod.fst acc <;> simp [hm, ha, List.mem_append]

lemma firstSeen_nodup : ∀ l, (firstSeen l).Nodup := by
  intro l
  induction l with
  | nil => simp [firstSeen]
  | cons k rest ih =>
    unfold firstSeen
    rw [List.nodup_cons]
    constructor
    · intro hmem
      have := List.of_mem_filter hmem
      simp at this
    · exact List.Nodup.filter _ ih

lemma countsGet_of_mem : ∀ (counts : List (List Nat × Nat)),
    (counts.map Prod.fst).Nodup → ∀ p ∈ counts, countsGet counts p.1 = p.2 := by
  intro counts
  induction counts with
  | nil => intro _ p hp; simp at hp
  | cons q t ih =>
    intro hnd p hp
    obtain ⟨k0, c0⟩ := q
    rcases List.mem_cons.mp hp with he | ht
    · subst he
      unfold countsGet
      simp [List.find?]
    · rw [List.map_cons] at hnd
      have hnd2 := List.nodup_cons.mp hnd
      obtain ⟨k1, c1⟩ := p
      have hk : ¬ k1 = k0 := by
        intro h0
        apply hnd2.1
        rw [← h0]
        simpa using List.mem_map_of_mem Prod.fst ht
      have hbeq : ¬ ((k0 == k1) = true) := by simpa using Ne.symm hk
      rw [countsGet_cons, if_neg hbeq]
      exact ih hnd2.2 (k1, c1) ht

lemma insertDesc_perm (x : List Nat × Nat) :
    ∀ l, (insertDesc x l).Perm (x :: l) := by
  intro l
  induction l with
  | nil => simp [insertDesc]
  | cons y t ih =>
    unfold insertDesc
    by_cases hxy : y.2 ≤ x.2
    · rw [if_pos hxy]
    · rw [if_neg hxy]
      exact (List.Perm.cons y ih).trans (List.Perm.swap x y t)

lemma sortDesc_perm : ∀ l, (sortDesc l).Perm l := by
  intro l
  induction l with
  | nil => simp [sortDesc]
  | cons a t ih =>
    unfold sortDesc
    exact (insertDesc_perm a (sortDesc t)).trans (List.Perm.cons a ih)

lemma insertDesc_pairwise {x : List Nat × Nat} :
    ∀ {l}, List.Pairwise (fun a b : List Nat × Nat => b.2 ≤ a.2) l →
      List.Pairwise (fun a b : List Nat × Nat => b.2 ≤ a.2) (insertDesc x l) := by
  intro l
  induction l with
  | nil => intro _; simp [insertDesc]
  | cons y t ih =>
    intro h
    rw [List.pairwise_cons] at h
    unfold insertDesc
    by_cases hxy : y.2 ≤ x.2
    · rw [if_pos hxy]
      rw [List.pairwise_cons]
      constructor
      · intro z hz
        rcases List.mem_cons.mp hz with he | ht
        · subst he; exact hxy
        · exact le_trans (h.1 z ht) hxy
      · rw [List.pairwise_cons]
        exact h
    · rw [if_neg hxy]
      rw [List.pairwise_cons]
      constructor
      · intro z hz
        rcases List.mem_cons.mp ((insertDesc_perm x t).mem_iff.mp hz) with he | ht
        · subst he
          omega
        · exact h.1 z ht
      · exact ih h.2

lemma sortDesc_pairwise : ∀ l, List.Pairwise (fun a b : List Nat × Nat => b.2 ≤ a.2)
    (sortDesc l) := by
  intro l
  induction l with
  | nil => simp [sortDesc]
  | cons a t ih =>
    unfold sortDesc
    exact insertDesc_pairwise ih

lemma insertDesc_filter_count (c : Nat) (x : List Nat × Nat) :
    ∀ l, (insertDesc x l).filter (fun p => p.2 == c) =
      if (x.2 == c) = true then x :: l.filter (fun p => p.2 == c)
      else l.filter (fun p => p.2 == c) := by
  intro l
  induction l with
  | nil =>
    by_cases hc : (x.2 == c) = true
    · simp [insertDesc, List.filter, hc]
    · simp [insertDesc, List.filter, hc]
  | cons y t ih =>
    unfold insertDesc
    by_cases hxy : y.2 ≤ x.2
    · rw [if_pos hxy]
      by_cases hc : (x.2 == c) = true
      · simp [hc, List.filter_cons]
      · simp [hc, List.filter_cons]
    · rw [if_neg hxy]
      rw [List.filter_cons, ih]
      by_cases hyc : (y.2 == c) = true
      · have hxc : (x.2 == c) = false := by
          have hyc2 : y.2 = c := by simpa using hyc
          have hlt : x.2 < y.2 := Nat.not_le.mp hxy
          simp
          omega
        simp [hyc, hxc, List.filter_cons]
      · by_cases hc : (x.2 == c) = true
        · simp [hyc, hc, List.filter_cons]
        · simp [hyc, hc, List.filter_cons]

lemma sortDesc_filter_count (c : Nat) : ∀ l,
    (sortDesc l).filter (fun p => p.2 == c) = l.filter (fun p => p.2 == c) := by
  intro l
  induction l with
  | nil => simp [sortDesc]
  | cons a t ih =>
    unfold sortDesc
    rw [insertDesc_filter_count]
    by_cases hc : (a.2 == c) = true
    · simp [hc, List.filter_cons, ih]
    · simp [hc, List.filter_cons, ih]

lemma length_filter_le_one_of_nodup_map {α κ : Type} [BEq κ] [LawfulBEq κ] (f : α → κ) :
    ∀ (l : List α), (l.map f).Nodup → ∀ k, (l.filter (fun e => f e == k)).length ≤ 1 := by
  intro l
  induction l with
  | nil => intro _ k; simp
  | cons e t ih =>
    intro h k
    rw [List.map_cons] at h
    have h2 := List.nodup_cons.mp h
    rw [List.filter_cons]
    by_cases hek : (f e == k) = true
    · have hfe : f e = k := by simpa using hek
      have hnil : t.filter (fun x => f x == k) = [] := by
        rw [List.filter_eq_nil_iff]
        intro x hx hfx
        have hxk : f x = k := by simpa using hfx
        have hin : f e ∈ List.map f t := by
          have hx2 := List.mem_map_of_mem f hx
          rwa [hxk, ← hfe] at hx2
        exact h2.1 hin
      simp [hek, hnil]
    · simp only [hek, Bool.false_eq_true, if_false]
      exact ih h2.2 k

lemma map_fst_filter_eq {l : List (List Nat × Nat)} {P : (List Nat × Nat) → Bool}
    {Q : List Nat → Bool} (h : ∀ p ∈ l, P p = Q p.1) :
    (l.filter P).map Prod.fst = (l.map Prod.fst).filter Q := by
  induction l with
  | nil => simp
  | cons p t ih =>
    rw [List.filter_cons, List.map_cons, List.filter_cons]
    rw [← h p (by simp)]
    by_cases hp : P p = true
    · simp only [hp, if_true, List.map_cons]
      rw [ih (fun q hq => h q (by simp [hq]))]
    · simp only [hp, Bool.false_eq_true, if_false]
      exact ih (fun q hq => h q (by simp [hq]))

/-- The character class of the amended idempotence statement: ASCII
letters and the space. -/
def plainChar (c : Nat) : Bool := isAlphaCp c || c == 32

lemma plainChar_bounds {c : Nat} (h : plainChar c = true) :
    c = 32 ∨ (65 ≤ c ∧ c ≤ 90) ∨ (97 ≤ c ∧ c ≤ 122) := by
  simp [plainChar, isAlphaCp] at h
  omega

lemma plain_beq_false {c k : Nat} (h : plainChar c = true) (hk : plainChar k = false) :
    (c == k) = false := by
  cases hck : c == k
  · rfl
  · have : c = k := by simpa using hck
    subst this
    rw [h] at hk
    simp at hk

lemma plain_not_digit {c : Nat} (h : plainChar c = true) : isDigitCp c = false := by
  have := plainChar_bounds h
  simp [isDigitCp]
  omega

lemma plain_not_ws_of_ne32 {c : Nat} (h : plainChar c = true) (h32 : ¬ c = 32) :
    isWsCp c = false := by
  have := plainChar_bounds h
  simp [isWsCp]
  omega

lemma chompChar_plain_none {k : Nat} (r : List Nat)
    (hmem : ∀ x ∈ r, plainChar x = true) (hk : plainChar k = false) :
    chompChar k r = none := by
  cases r with
  | nil => rfl
  | cons a t =>
    unfold chompChar
    dsimp only
    rw [plain_beq_false (hmem a (by simp)) hk]
    simp

lemma hexChomp_some_drop : ∀ (n : Nat) (s r : List Nat), hexChomp n s = some r → r = s.drop n := by
  intro n
  induction n with
  | zero =>
    intro s r h
    unfold hexChomp at h
    simp at h
    simp [h.symm]
  | succ m ih =>
    intro s r h
    unfold hexChomp at h
    cases s with
    | nil => simp at h
    | cons c t =>
      dsimp only at h
      by_cases hx : isHexCp c = true
      · rw [if_pos hx] at h
        simpa using ih t r h
      · rw [if_neg hx] at h
        simp at h

lemma matchQuoted_plain_none (prev : Option Nat) (c : Nat) (t : List Nat)
    (h : ∀ x ∈ c :: t, plainChar x = true) : matchQuoted prev (c :: t) = none := by
  have hc := h c (by simp)
  unfold matchQuoted
  dsimp only
  rw [plain_beq_false hc (by decide), plain_beq_false hc (by decide)]
  simp

lemma matchGuid_plain_none (prev : Option Nat) (c : Nat) (t : List Nat)
    (h : ∀ x ∈ c :: t, plainChar x = true) : matchGuid prev (c :: t) = none := by
  unfold matchGuid
  dsimp only
  by_cases hb : (prevWord prev != isWordCp c) = true
  · rw [if_pos hb]
    cases h8 : hexChomp 8 (c :: t) with
    | none => simp [h8]
    | some r =>
      have hr : r = (c :: t).drop 8 := hexChomp_some_drop 8 _ r h8
      have hmem : ∀ x ∈ r, plainChar x = true := by
        intro x hx
        exact h x (List.mem_of_mem_drop (hr ▸ hx))
      have h45 : chompChar 45 r = none := chompChar_plain_none r hmem (by decide)
      simp [h8, h45]
  · rw [if_neg hb]

lemma matchHexLit_plain_none (prev : Option Nat) (c : Nat) (t : List Nat)
    (h : ∀ x ∈ c :: t, plainChar x = true) : matchHexLit prev (c :: t) = none := by
  cases t with
  | nil => rfl
  | cons c1 t2 =>
    have hc := h c (by simp)
    unfold matchHexLit
    dsimp only
    rw [plain_beq_false hc (by decide)]
    simp

lemma digitRun_plain_zero (c : Nat) (t : List Nat)
    (h : ∀ x ∈ c :: t, plainChar x = true) : digitRun (c :: t) = 0 := by
  unfold digitRun
  rw [List.takeWhile_cons]
  simp [plain_not_digit (h c (by simp))]

lemma matchIp_plain_none (prev : Option Nat) (c : Nat) (t : List Nat)
    (h : ∀ x ∈ c :: t, plainChar x = true) : matchIp prev (c :: t) = none := by
  unfold matchIp
  by_cases hp : prevWord prev = true
  · simp [hp]
  · have hg : ipGroup (c :: t) = none := by
      unfold ipGroup
      rw [digitRun_plain_zero c t h]
      simp
    simp [hp, hg]

lemma matchEmail_plain_none (prev : Option Nat) (c : Nat) (t : List Nat)
    (h : ∀ x ∈ c :: t, plainChar x = true) : matchEmail prev (c :: t) = none := by
  unfold matchEmail
  dsimp only
  by_cases hb : (prevWord prev != isWordCp c) = true
  · rw [if_pos hb]
    by_cases ha : (((c :: t).takeWhile emailChar).length == 0) = true
    · simp [ha]
    · have hdrop : ∀ x ∈ (c :: t).drop ((c :: t).takeWhile emailChar).length,
          plainChar x = true := by
        intro x hx
        exact h x (List.mem_of_mem_drop hx)
      have h64 : chompChar 64 ((c :: t).drop ((c :: t).takeWhile emailChar).length) = none :=
        chompChar_plain_none _ hdrop (by decide)
      simp [ha, h64]
  · rw [if_neg hb]

lemma matchPath_plain_none (prev : Option Nat) (c : Nat) (t : List Nat)
    (h : ∀ x ∈ c :: t, plainChar x = true) : matchPath prev (c :: t) = none := by
  have hc := h c (by simp)
  have halt1 : (match c :: t with
    | c :: c1 :: c2 :: t =>
      if isAlphaCp c && c1 == 58 && c2 == 92 then
        if ((t.takeWhile pathChar).length == 0) = true then none
        else some (3 + (t.takeWhile pathChar).length)
      else none
    | _ => none) = (none : Option Nat) := by
    cases t with
    | nil => rfl
    | cons c1 t2 =>
      cases t2 with
      | nil => rfl
      | cons c2 t3 =>
        have hc1 := h c1 (by simp)
        have h58 : (c1 == 58) = false := plain_beq_false hc1 (by decide)
        simp [h58]
  unfold matchPath
  dsimp only
  rw [halt1]
  rw [plain_beq_false hc (by decide)]
  simp

lemma matchNum_plain_none (prev : Option Nat) (c : Nat) (t : List Nat)
    (h : ∀ x ∈ c :: t, plainChar x = true) : matchNum prev (c :: t) = none := by
  unfold matchNum
  by_cases hp : prevWord prev = true
  · simp [hp]
  · rw [digitRun_plain_zero c t h]
    simp [hp]

lemma matchBrackets_plain_none (prev : Option Nat) (c : Nat) (t : List Nat)
    (h : ∀ x ∈ c :: t, plainChar x = true) : matchBrackets prev (c :: t) = none := by
  have hc := h c (by simp)
  unfold matchBrackets
  dsimp only
  rw [plain_beq_false hc (by decide), plain_beq_false hc (by decide),
    plain_beq_false hc (by decide)]
  simp

lemma reSubGo_id_of_none (m : Option Nat → List Nat → Option Nat) (repl : List Nat)
    (hnone : ∀ prev c t, (∀ x ∈ c :: t, plainChar x = true) → m prev (c :: t) = none) :
    ∀ fuel prev s, (∀ x ∈ s, plainChar x = true) → reSubGo fuel m repl prev s = s := by
  intro fuel
  induction fuel with
  | zero => intro prev s _; rfl
  | succ n ih =>
    intro prev s h
    cases s with
    | nil => rfl
    | cons c t =>
      unfold reSubGo
      dsimp only
      rw [hnone prev c t h]
      dsimp only
      rw [ih (some c) t (fun x hx => h x (by simp [hx]))]

/-- No two adjacent spaces (hypothesis class of the amended C8). -/
def noTwoSpaces : List Nat → Bool
  | [] => true
  | [_] => true
  | a :: b :: t => !(a == 32 && b == 32) && noTwoSpaces (b :: t)

lemma noTwoSpaces_tail {a : Nat} {t : List Nat} (h : noTwoSpaces (a :: t) = true) :
    noTwoSpaces t = true := by
  cases t with
  | nil => rfl
  | cons b t2 =>
    unfold noTwoSpaces at h
    exact (Bool.and_eq_true_iff.mp h).2

lemma noTwoSpaces_head {a b : Nat} {t : List Nat} (h : noTwoSpaces (a :: b :: t) = true) :
    ¬ (a = 32 ∧ b = 32) := by
  unfold noTwoSpaces at h
  have h1 := (Bool.and_eq_true_iff.mp h).1
  intro hab
  obtain ⟨ha, hb⟩ := hab
  subst ha; subst hb
  simp at h1

lemma reSubGo_ws_id :
    ∀ fuel prev s, (∀ x ∈ s, plainChar x = true) →
      noTwoSpaces s = true →
      reSubGo fuel matchWs [32] prev s = s := by
  intro fuel
  induction fuel with
  | zero => intro prev s _ _; rfl
  | succ n ih =>
    intro prev s h hch
    cases s with
    | nil => rfl
    | cons c t =>
      by_cases hc32 : c = 32
      · subst hc32
        have htw : (32 :: t).takeWhile isWsCp = [32] := by
          rw [List.takeWhile_cons]
          have h32ws : isWsCp 32 = true := by decide
          rw [h32ws]
          simp only [if_true]
          cases t with
          | nil => rfl
          | cons d t2 =>
            have hd := h d (by simp)
            have hd32 : ¬ d = 32 := fun h0 => noTwoSpaces_head hch ⟨rfl, h0⟩
            rw [List.takeWhile_cons]
            rw [plain_not_ws_of_ne32 hd hd32]
            simp
        have hm : matchWs prev (32 :: t) = some 1 := by
          unfold matchWs
          dsimp only
          rw [htw]
          rfl
        unfold reSubGo
        dsimp only
        rw [hm]
        dsimp only
        have ht : reSubGo n matchWs [32] (some 32) t = t :=
          ih (some 32) t (fun x hx => h x (by simp [hx])) (noTwoSpaces_tail hch)
        simpa using ht
      · have hm : matchWs prev (c :: t) = none := by
          unfold matchWs
          dsimp only
          rw [List.takeWhile_cons]
          rw [plain_not_ws_of_ne32 (h c (by simp)) hc32]
          simp
        unfold reSubGo
        dsimp only
        rw [hm]
        dsimp only
        rw [ih (some c) t (fun x hx => h x (by simp [hx])) (noTwoSpaces_tail hch)]

lemma dropWhile_id_of_head {p : Nat → Bool} {s : List Nat}
    (h : ∀ x, s.head? = some x → p x = false) : s.dropWhile p = s := by
  cases s with
  | nil => rfl
  | cons c t =>
    rw [List.dropWhile_cons]
    simp [h c rfl]

lemma pyStrip_id (s : List Nat) (h : ∀ x ∈ s, plainChar x = true)
    (hh : s.head? ≠ some 32) (hl : s.getLast? ≠ some 32) : pyStrip s = s := by
  unfold pyStrip
  have h1 : s.dropWhile isWsCp = s := by
    apply dropWhile_id_of_head
    intro x hx
    have hxm : x ∈ s := by
      cases s with
      | nil => simp at hx
      | cons c t =>
        simp at hx
        simp [hx]
    apply plain_not_ws_of_ne32 (h x hxm)
    intro h0
    subst h0
    exact hh hx
  rw [h1]
  have h2 : s.reverse.dropWhile isWsCp = s.reverse := by
    apply dropWhile_id_of_head
    intro x hx
    rw [List.head?_reverse] at hx
    have hxm : x ∈ s := by
      have hsplit := getLast?_some_eq_append hx
      rw [← hsplit]
      simp
    apply plain_not_ws_of_ne32 (h x hxm)
    intro h0
    subst h0
    exact hl hx
  rw [h2, List.reverse_reverse]

lemma normalize_plain_id (s : List Nat)
    (h1 : ∀ x ∈ s, plainChar x = true)
    (h2 : noTwoSpaces s = true)
    (h3 : s.head? ≠ some 32) (h4 : s.getLast? ≠ some 32)
    (h5 : s.length ≤ 180) :
    normalize_message_for_cluster s = s := by
  simp only [normalize_message_for_cluster, reSub]
  rw [pyStrip_id s h1 h3 h4]
  rw [reSubGo_id_of_none matchQuoted (strCp "<str>") matchQuoted_plain_none s.length none s h1]
  rw [reSubGo_id_of_none matchGuid (strCp "<guid>") matchGuid_plain_none s.length none s h1]
  rw [reSubGo_id_of_none matchHexLit (strCp "<hex>") matchHexLit_plain_none s.length none s h1]
  rw [reSubGo_id_of_none matchIp (strCp "<ip>") matchIp_plain_none s.length none s h1]
  rw [reSubGo_id_of_none matchEmail (strCp "<email>") matchEmail_plain_none s.length none s h1]
  rw [reSubGo_id_of_none matchPath (strCp "<path>") matchPath_plain_none s.length none s h1]
  rw [reSubGo_id_of_none matchNum (strCp "<num>") matchNum_plain_none s.length none s h1]
  rw [reSubGo_id_of_none matchBrackets [32] matchBrackets_plain_none s.length none s h1]
  rw [reSubGo_ws_id s.length none s h1 h2]
  rw [pyStrip_id s h1 h3 h4]
  rw [if_neg (by omega)]

/-- C8 amended. Normalization is not idempotent in general (see the
counterexample), but on strings of ASCII letters and single interior
spaces of length at most 180 — where every substitution pass and the
truncation are the identity — applying it twice agrees with applying it
once. -/
theorem normalize_idempotent_on_plain_words (s : List Nat)
    (h1 : ∀ x ∈ s, plainChar x = true)
    (h2 : noTwoSpaces s = true)
    (h3 : s.head? ≠ some 32) (h4 : s.getLast? ≠ some 32)
    (h5 : s.length ≤ 180) :
    normalize_message_for_cluster (normalize_message_for_cluster s) =
      normalize_message_for_cluster s := by
  rw [normalize_plain_id s h1 h2 h3 h4 h5]
  exact normalize_plain_id s h1 h2 h3 h4 h5

/-- Witness for the amended C8 at the concrete string
`"Service started"`. -/
theorem normalize_idempotent_on_plain_words_witness :
    normalize_message_for_cluster (normalize_message_for_cluster (strCp "Service started")) =
      normalize_message_for_cluster (strCp "Service started") :=
  normalize_idempotent_on_plain_words (strCp "Service started")
    (by decide) (by decide) (by decide) (by decide) (by decide)

lemma clusterLoop_no_cancel (mm : Option (List Nat)) (idx : LogIndex) (onlyErrors : Bool)
    (maxC : Nat) :
    ∀ rows (j : Nat) counts sample, ∃ samp,
      clusterLoop mm idx onlyErrors maxC none rows j counts sample =
        .done ((mostCommon (List.foldl bump counts (clusterKeptKeys mm idx onlyErrors rows))
            maxC).map (fun p => (p.2, p.1, sampleGet samp p.1))) := by
  intro rows
  induction rows with
  | nil =>
    intro j counts sample
    refine ⟨sample, ?_⟩
    simp [clusterLoop, clusterKeptKeys]
  | cons row rest ih =>
    intro j counts sample
    cases hline : clusterLineOf mm idx onlyErrors row with
    | none =>
      have hrk : clusterRowKey mm idx onlyErrors row = none := by
        unfold clusterRowKey
        rw [hline]
      obtain ⟨samp, hs⟩ := ih (j + 1) counts sample
      refine ⟨samp, ?_⟩
      have hkk : clusterKeptKeys mm idx onlyErrors (row :: rest) =
          clusterKeptKeys mm idx onlyErrors rest := by
        unfold clusterKeptKeys
        rw [List.filterMap_cons_none hrk]
      rw [hkk]
      unfold clusterLoop
      dsimp only [cancelHit]
      rw [hline]
      exact hs
    | some line =>
      by_cases hkey : (clusterKeyOf line).isEmpty = true
      · have hrk : clusterRowKey mm idx onlyErrors row = none := by
          unfold clusterRowKey
          rw [hline]
          simp [hkey]
        obtain ⟨samp, hs⟩ := ih (j + 1) counts sample
        refine ⟨samp, ?_⟩
        have hkk : clusterKeptKeys mm idx onlyErrors (row :: rest) =
            clusterKeptKeys mm idx onlyErrors rest := by
          unfold clusterKeptKeys
          rw [List.filterMap_cons_none hrk]
        rw [hkk]
        unfold clusterLoop
        dsimp only [cancelHit]
        rw [hline]
        dsimp only
        rw [if_pos hkey]
        exact hs
      · have hrk : clusterRowKey mm idx onlyErrors row = some (clusterKeyOf line) := by
          unfold clusterRowKey
          rw [hline]
          simp [hkey]
        obtain ⟨samp, hs⟩ := ih (j + 1) (bump counts (clusterKeyOf line))
          (sampleAdd sample (clusterKeyOf line) line)
        refine ⟨samp, ?_⟩
        have hkk : clusterKeptKeys mm idx onlyErrors (row :: rest) =
            clusterKeyOf line :: clusterKeptKeys mm idx onlyErrors rest := by
          unfold clusterKeptKeys
          rw [List.filterMap_cons_some hrk]
        rw [hkk]
        unfold clusterLoop
        dsimp only [cancelHit]
        simp only [Bool.false_eq_true, if_false]
        rw [hline]
        dsimp only
        rw [if_neg hkey]
        rw [List.foldl_cons]
        exact hs

/-- C7. A completed (never-cancelled) cluster run emits at most
`maxClusters` entries, sorted by descending count; each normalized key
appears in at most one entry; an entry's count is exactly the number of
kept rows normalizing to its key; and entries of equal count keep the
order in which their keys were first seen among the kept rows. -/
theorem cluster_counts_and_ranking (mm : Option (List Nat)) (idx : LogIndex)
    (onlyErrors : Bool) (maxC : Nat) (rows : List Nat) :
    ∃ entries, runCluster mm idx rows onlyErrors maxC none = .done entries ∧
      entries.length ≤ maxC ∧
      List.Pairwise (fun a b : Nat × List Nat × List Nat => b.1 ≤ a.1) entries ∧
      (∀ k, (entries.filter (fun e => e.2.1 == k)).length ≤ 1) ∧
      (∀ e ∈ entries, e.1 = (clusterKeptKeys mm idx onlyErrors rows).count e.2.1) ∧
      (∀ c, ∃ t, (entries.filter (fun e => e.1 == c)).map (fun e => e.2.1) ++ t =
        (firstSeen (clusterKeptKeys mm idx onlyErrors rows)).filter
          (fun k => (clusterKeptKeys mm idx onlyErrors rows).count k == c)) := by
  obtain ⟨samp, hs⟩ := clusterLoop_no_cancel mm idx onlyErrors maxC rows 0 [] []
  set keys := clusterKeptKeys mm idx onlyErrors rows with hkeys
  set counts := List.foldl bump ([] : List (List Nat × Nat)) keys with hcounts
  have hmapfst : counts.map Prod.fst = firstSeen keys := by
    rw [hcounts, foldl_bump_map_fst]
    simp
  have hnd : (counts.map Prod.fst).Nodup := by
    rw [hmapfst]
    exact firstSeen_nodup keys
  have hget : ∀ k, countsGet counts k = keys.count k := by
    intro k
    rw [hcounts, foldl_bump_countsGet]
    simp [countsGet]
  have hcount_mem : ∀ p ∈ counts, p.2 = keys.count p.1 := by
    intro p hp
    rw [← hget p.1]
    exact (countsGet_of_mem counts hnd p hp).symm
  refine ⟨_, hs, ?_, ?_, ?_, ?_, ?_⟩
  · rw [List.length_map]
    unfold mostCommon
    exact le_trans (List.length_take_le maxC (sortDesc counts)) (le_refl _)
  · apply List.Pairwise.map
    · intro a b hab
      exact hab
    · unfold mostCommon
      exact List.Pairwise.sublist (List.take_sublist maxC (sortDesc counts))
        (sortDesc_pairwise counts)
  · intro k
    have hnd2 : ((sortDesc counts).map Prod.fst).Nodup := by
      have hperm := (sortDesc_perm counts).map Prod.fst
      exact hperm.nodup_iff.mpr hnd
    have hnd3 : (((sortDesc counts).take maxC).map Prod.fst).Nodup :=
      List.Nodup.sublist (List.Sublist.map Prod.fst (List.take_sublist maxC _)) hnd2
    refine length_filter_le_one_of_nodup_map
      (fun e : Nat × List Nat × List Nat => e.2.1) _ ?_ k
    have hme : (List.map (fun e : Nat × List Nat × List Nat => e.2.1)
        (List.map (fun p : List Nat × Nat => (p.2, p.1, sampleGet samp p.1))
          (mostCommon counts maxC))) =
        List.map Prod.fst (List.take maxC (sortDesc counts)) := by
      rw [List.map_map]
      rfl
    rw [hme]
    exact hnd3
  · intro e he
    obtain ⟨p, hp, hpe⟩ := List.mem_map.mp he
    have hp2 : p ∈ sortDesc counts := List.mem_of_mem_take hp
    have hp3 : p ∈ counts := (sortDesc_perm counts).subset hp2
    rw [← hpe]
    exact hcount_mem p hp3
  · intro c
    have hstable : ((sortDesc counts).filter (fun p => p.2 == c)) =
        counts.filter (fun p => p.2 == c) := sortDesc_filter_count c counts
    have hfsplit : ((sortDesc counts).take maxC).filter (fun p => p.2 == c) ++
        ((sortDesc counts).drop maxC).filter (fun p => p.2 == c) =
        counts.filter (fun p => p.2 == c) := by
      rw [← List.filter_append, List.take_append_drop]
      exact hstable
    refine ⟨(((sortDesc counts).drop maxC).filter (fun p => p.2 == c)).map Prod.fst, ?_⟩
    have hfe : ((mostCommon counts maxC).map
          (fun p => (p.2, p.1, sampleGet samp p.1))).filter (fun e => e.1 == c) =
        (((sortDesc counts).take maxC).filter (fun p => p.2 == c)).map
          (fun p => (p.2, p.1, sampleGet samp p.1)) := by
      unfold mostCommon
      rw [List.filter_map]
      rfl
    rw [hfe, List.map_map]
    have hmc : ((((sortDesc counts).take maxC).filter (fun p => p.2 == c)).map
        ((fun e : Nat × List Nat × List Nat => e.2.1) ∘
          (fun p : List Nat × Nat => (p.2, p.1, sampleGet samp p.1)))) =
        (((sortDesc counts).take maxC).filter (fun p => p.2 == c)).map Prod.fst := rfl
    rw [hmc, ← List.map_append, hfsplit]
    rw [map_fst_filter_eq (fun p hp => ?_)]
    · rw [hmapfst]
    · show (p.2 == c) = ((keys.count p.1 : Nat) == c)
      rw [hcount_mem p hp]

/-- C10 counterexample. The line `"WARN then ERROR happened"` satisfies
every condition of the claim — it begins with the canonical level word
`WARN` followed by a space and contains no bracket, parenthesis or colon
character at all — yet level detection returns `ERROR` (stored level
code 4, not 255): the padded fast-path token `" ERROR "` matches later
in the line even though the start token itself cannot. -/
theorem detect_level_start_token_cex :
    strCp "WARN then ERROR happened" = strCp "WARN" ++ 32 :: strCp "then ERROR happened" ∧
    strCp "WARN" ∈ LEVEL_WORDS ∧
    ¬ 91 ∈ strCp "WARN then ERROR happened" ∧
    ¬ 40 ∈ strCp "WARN then ERROR happened" ∧
    ¬ 58 ∈ strCp "WARN then ERROR happened" ∧
    detect_level (strCp "WARN then ERROR happened") = strCp "ERROR" ∧
    levelCodeOf (strCp "WARN then ERROR happened") = 4 := by decide

/-- C10 amended. A line that begins with a canonical level word followed
by a space yields no detected level — the fast path needs a space on
both sides of a token, so the token at the very start of the line is
never matched — provided additionally (as the counterexample forces)
that no space-padded token occurs anywhere in the upper-cased first 200
characters and no bracketed, parenthesised or colon-suffixed form
occurs there either; the level code stored for such a line is 255. -/
theorem detect_level_start_token_unmatched (line w : List Nat)
    (_hw : w ∈ LEVEL_WORDS)
    (_hshape : ∃ rest, line = w ++ 32 :: rest)
    (hfast : ∀ t ∈ fastTokens, occursIn t ((line.take 200).map asciiUpper) = false)
    (hfb : ∀ v ∈ LEVEL_WORDS,
      occursIn (brkForm v) ((line.take 200).map asciiUpper) = false ∧
      occursIn (parForm v) ((line.take 200).map asciiUpper) = false ∧
      occursIn (colForm v) ((line.take 200).map asciiUpper) = false) :
    detect_level line = [] ∧ levelCodeOf line = 255 := by
  have h1 : fastTokens.find? (fun t => occursIn t ((line.take 200).map asciiUpper)) = none := by
    rw [List.find?_eq_none]
    intro t ht
    rw [hfast t ht]
    exact Bool.false_ne_true
  have h2 : LEVEL_WORDS.find? (fun v =>
      occursIn (brkForm v) ((line.take 200).map asciiUpper) ||
      occursIn (parForm v) ((line.take 200).map asciiUpper) ||
      occursIn (colForm v) ((line.take 200).map asciiUpper)) = none := by
    rw [List.find?_eq_none]
    intro v hv
    rw [(hfb v hv).1, (hfb v hv).2.1, (hfb v hv).2.2]
    simp
  have hd : detect_level line = [] := by
    unfold detect_level
    simp only [h1, h2]
  exact ⟨hd, by simp [levelCodeOf, hd]⟩

/-- Witness for C10 at the concrete line `"INFO Service started"`. -/
theorem detect_level_start_token_unmatched_witness :
    detect_level (strCp "INFO Service started") = [] ∧
    levelCodeOf (strCp "INFO Service started") = 255 :=
  detect_level_start_token_unmatched (strCp "INFO Service started") (strCp "INFO")
    (by decide)
    ⟨strCp "Service started", by decide⟩
    (by decide)
    (by decide)

end LogVista
